import Mathlib

set_option autoImplicit false

/-!
Verification of the change-detection / reconciliation engine of the
x_monitor subsystem (src/x_monitor/state.py, feed.py, main.py).

The Python code is shallowly embedded:
* `Tweet` mirrors the dataclass in src/x_monitor/models.py.
* `StateRecord` mirrors the per-id dict written by
  `StateManager.process_tweets` (state.py lines 92-102 / 108-117); the
  persisted state dict is modelled as an insertion-ordered association
  list (`StateMap`), matching Python dict semantics (lookup by key,
  assignment replaces in place or appends, iteration in insertion order).
* `content_hash` (state.py lines 53-61) computes
  `sha256("||".join([text, "|".join(images), "|".join(videos)]))`.
  SHA-256 is a fixed deterministic function of its input string, so we
  model the digest by that input string itself: equal strings give equal
  digests, and the code relies on collision resistance to treat distinct
  strings as distinct digests.  All hash comparisons below are therefore
  comparisons of these pre-image strings.
* `process_tweets` (state.py lines 63-150) is embedded as a pure function
  of an explicit "now" timestamp string (the code takes
  `datetime.now(timezone.utc)` once per call), the fetched batch, and the
  state map.
-/

/-- Mirror of the `Tweet` dataclass (src/x_monitor/models.py). -/
structure Tweet where
  id : String
  text : String
  url : String
  images : List String := []
  videos : List String := []
  timestamp : Option String := none
  is_retweet : Bool := false
  quote_text : Option String := none
  quote_author : Option String := none
  author_name : Option String := none
  author_avatar : Option String := none
deriving Repr, DecidableEq

/-- Mirror of the per-id state dict created at state.py lines 92-102:
keys "hash", "text", "images", "videos", "url", "first_seen",
"last_seen", "missing_streak", "deleted". -/
structure StateRecord where
  hash : String
  text : String
  images : List String
  videos : List String
  url : String
  first_seen : String
  last_seen : String
  missing_streak : Nat
  deleted : Bool
deriving Repr, DecidableEq

/-- The persisted state: a Python dict from tweet id to record, modelled
as an insertion-ordered association list. -/
abbrev StateMap := List (String × StateRecord)

/-- `state.get(id)`: first binding of the key, if any. -/
def lookupRec : StateMap → String → Option StateRecord
  | [], _ => none
  | p :: rest, k => if p.1 = k then some p.2 else lookupRec rest k

/-- `state[id] = rec`: replace the (first) binding in place, else append,
exactly as Python dict assignment behaves with respect to iteration
order. -/
def setRec : StateMap → String → StateRecord → StateMap
  | [], k, v => [(k, v)]
  | p :: rest, k, v => if p.1 = k then (k, v) :: rest else p :: setRec rest k v

/-- Python `"|".join(l)`: the elements of `l` interleaved with a single
`"|"` separator. -/
def joinBar : List String → String
  | [] => ""
  | [x] => x
  | x :: xs => x ++ "|" ++ joinBar xs

/-- `StateManager.content_hash` (state.py lines 53-61): the SHA-256
digest of `"||".join([text, "|".join(images), "|".join(videos)])`.
The join of the three-element list is written out as
`text ++ "||" ++ images-join ++ "||" ++ videos-join`; the digest is
modelled by its pre-image string (see module comment). -/
def content_hash (t : Tweet) : String :=
  t.text ++ "||" ++ joinBar t.images ++ "||" ++ joinBar t.videos

/-- Decimal value of a digit string, most significant first:
`int(s)` for a string of ASCII digits. -/
def digitsValAux : Nat → List Char → Nat
  | acc, [] => acc
  | acc, c :: cs => digitsValAux (10 * acc + (c.toNat - 48)) cs

/-- `int(x[0].id) if x[0].id.isdigit() else 0` (state.py line 148):
the sort key used for notifications.  `str.isdigit` is modelled for
ASCII digit strings (the ids produced by the feed parser are `\d+`
matches). -/
def idKey (s : String) : Nat :=
  if s ≠ "" ∧ s.data.all Char.isDigit then digitsValAux 0 s.data else 0

/-- Sort key of one notification pair. -/
def notifKey (p : Tweet × String) : Nat := idKey p.1.id

/-- The ordering relation used by the notification sort: compare the
numeric keys of the two pairs. -/
def keyLe (a b : Tweet × String) : Prop := notifKey a ≤ notifKey b

instance : DecidableRel keyLe := fun a b => Nat.decLe (notifKey a) (notifKey b)

instance : IsTotal (Tweet × String) keyLe :=
  ⟨fun a b => Nat.le_total (notifKey a) (notifKey b)⟩

instance : IsTrans (Tweet × String) keyLe :=
  ⟨fun _ _ _ h h' => Nat.le_trans h h'⟩

/-- Stable sort by `notifKey`, modelling
`notifications.sort(key=lambda x: ...)` (state.py lines 147-148);
Python's `list.sort` is stable, as is insertion sort with a
non-strict comparison. -/
def sortByKey (l : List (Tweet × String)) : List (Tweet × String) :=
  List.insertionSort keyLe l

/-- The record created for a brand-new id (state.py lines 92-102). -/
def newRecord (now : String) (t : Tweet) (h : String) : StateRecord :=
  { hash := h, text := t.text, images := t.images, videos := t.videos,
    url := t.url, first_seen := now, last_seen := now,
    missing_streak := 0, deleted := false }

/-- The in-place update applied to an existing record when its id is in
the current batch (state.py lines 108-117): content snapshot and hash
refreshed, `last_seen := now`, `missing_streak := 0`,
`deleted := False` — note the unconditional reset of `deleted`. -/
def updatedRecord (r : StateRecord) (now : String) (t : Tweet) (h : String) :
    StateRecord :=
  { hash := h, text := t.text, images := t.images, videos := t.videos,
    url := t.url, first_seen := r.first_seen, last_seen := now,
    missing_streak := 0, deleted := false }

/-- First loop of `process_tweets` (state.py lines 84-117): walk the
batch in feed order, emitting "new"/"edited" notifications and
creating/updating records.  Written as structural recursion on the
batch; the notification for the item at hand precedes those of the
rest of the batch, exactly as the loop appends them. -/
def processCurrent (now : String) : List Tweet → StateMap →
    List (Tweet × String) × StateMap
  | [], st => ([], st)
  | t :: rest, st =>
    let h := content_hash t
    match lookupRec st t.id with
    | none =>
        let r := processCurrent now rest (setRec st t.id (newRecord now t h))
        ((t, "new") :: r.1, r.2)
    | some rec =>
        let r := processCurrent now rest (setRec st t.id (updatedRecord rec now t h))
        (if rec.hash ≠ h then (t, "edited") :: r.1 else r.1, r.2)

/-- The synthetic `Tweet` built for a deletion notification (state.py
lines 134-142).  The code sets `rec["last_seen"] = now_iso` just before
reading `rec.get("last_seen")` into `timestamp`, so the timestamp is the
current cycle's `now`. -/
def deletedTweet (tid : String) (r : StateRecord) (now : String) : Tweet :=
  { id := tid, text := r.text, url := r.url, images := r.images,
    videos := r.videos, timestamp := some now, is_retweet := false }

/-- Second loop of `process_tweets` (state.py lines 119-145): every
record whose id is not in the current batch and is not already deleted
has its `missing_streak` incremented; on reaching 3 it is marked
deleted and a "deleted" notification is synthesized from the stored
snapshot.  Records are visited in map order and never removed.
Written as structural recursion over the state entries in map order;
each entry's contribution (possible notification, updated record) is
independent of the others, and the recursion preserves the loop's
append order. -/
def processMissing (now : String) (ids : List String) : StateMap →
    List (Tweet × String) × StateMap
  | [] => ([], [])
  | p :: rest =>
    let r := processMissing now ids rest
    if p.1 ∈ ids then (r.1, p :: r.2)
    else if p.2.deleted then (r.1, p :: r.2)
    else
      let ms := p.2.missing_streak + 1
      if ms ≥ 3 then
        let r2 : StateRecord :=
          { p.2 with missing_streak := ms, deleted := true, last_seen := now }
        ((deletedTweet p.1 p.2 now, "deleted") :: r.1, (p.1, r2) :: r.2)
      else
        (r.1, (p.1, { p.2 with missing_streak := ms }) :: r.2)

/-- `StateManager.process_tweets` (state.py lines 63-150): one
reconciliation pass at a single `now`, returning the sorted
notification list and the updated state map. -/
def process_tweets (now : String) (tweets : List Tweet) (st : StateMap) :
    List (Tweet × String) × StateMap :=
  let c := processCurrent now tweets st
  let ids := tweets.map (fun t => t.id)
  let m := processMissing now ids c.2
  (sortByKey (c.1 ++ m.1), m.2)

/-- Key list of the state map, in insertion order. -/
def keys (st : StateMap) : List String := st.map Prod.fst

/-- Entrywise record update performed by the missing-scan loop
(state.py lines 119-145) on a single state entry. -/
def missingStep (now : String) (ids : List String) (p : String × StateRecord) :
    String × StateRecord :=
  if p.1 ∈ ids then p
  else if p.2.deleted then p
  else if p.2.missing_streak + 1 ≥ 3 then
    (p.1,
      { p.2 with
        missing_streak := p.2.missing_streak + 1
        deleted := true
        last_seen := now })
  else (p.1, { p.2 with missing_streak := p.2.missing_streak + 1 })

/-- Entrywise notification emitted by the missing-scan loop on a single
state entry. -/
def missingNotif (now : String) (ids : List String) (p : String × StateRecord) :
    Option (Tweet × String) :=
  if p.1 ∈ ids then none
  else if p.2.deleted then none
  else if p.2.missing_streak + 1 ≥ 3 then some (deletedTweet p.1 p.2 now, "deleted")
  else none

/-- Example tweets used in concrete ordering statements. -/
def tweet2ex : Tweet := { id := "2", text := "b", url := "u2" }

def tweet10ex : Tweet := { id := "10", text := "x", url := "u10" }

/-- Item with empty text and a single image whose URL contains the
group separator characters; its pre-hash string collides with that of
`tweetC6b`. -/
def tweetC6a : Tweet :=
  { id := "1", text := "", url := "", images := ["||"], videos := [] }

/-- Item with non-empty text and no media whose pre-hash string equals
that of `tweetC6a`. -/
def tweetC6b : Tweet :=
  { id := "2", text := "||", url := "", images := [], videos := [] }

/-- Item with empty text and one separator-free image URL, for the C6
witness. -/
def tweetC6c : Tweet :=
  { id := "1", text := "", url := "", images := ["img.png"], videos := [] }

/-- Item with non-empty text and no media, for the C6 witness. -/
def tweetC6d : Tweet :=
  { id := "2", text := "t", url := "", images := [], videos := [] }

/-- Concrete item for the C5 witness: every presentation-only field is
populated. -/
def tweetC5a : Tweet :=
  { id := "1", text := "hello", url := "u", images := ["i"], videos := ["v"],
    timestamp := some "t1", is_retweet := true, quote_text := some "q",
    quote_author := some "qa", author_name := some "n",
    author_avatar := some "av" }

/-- Concrete item for the C5 witness: same content fields as `tweetC5a`,
all other fields different. -/
def tweetC5b : Tweet :=
  { id := "2", text := "hello", url := "w", images := ["i"], videos := ["v"] }

/-- The notifications in `l` that concern the id `i`. -/
def filtId (i : String) (l : List (Tweet × String)) : List (Tweet × String) :=
  l.filter (fun p => p.1.id = i)

/-- Tweet with id "1" used in the C1 counterexample chain. -/
def tweetC1a : Tweet := { id := "1", text := "a", url := "u" }

/-- Cycle 1 of the C1 counterexample: id "1" observed. -/
def c1run1 : List (Tweet × String) × StateMap := process_tweets "T1" [tweetC1a] []

/-- Cycle 2: id "1" absent (missing_streak 1). -/
def c1run2 : List (Tweet × String) × StateMap := process_tweets "T2" [tweet2ex] c1run1.2

/-- Cycle 3: id "1" absent (missing_streak 2). -/
def c1run3 : List (Tweet × String) × StateMap := process_tweets "T3" [tweet2ex] c1run2.2

/-- Cycle 4: id "1" absent a third time — deletion notification. -/
def c1run4 : List (Tweet × String) × StateMap := process_tweets "T4" [tweet2ex] c1run3.2

/-- Cycle 5: id "1" reappears in the batch. -/
def c1run5 : List (Tweet × String) × StateMap := process_tweets "T5" [tweetC1a] c1run4.2

/-- Cycles 6-8: id "1" absent again for three consecutive cycles. -/
def c1run6 : List (Tweet × String) × StateMap := process_tweets "T6" [tweet2ex] c1run5.2

def c1run7 : List (Tweet × String) × StateMap := process_tweets "T7" [tweet2ex] c1run6.2

def c1run8 : List (Tweet × String) × StateMap := process_tweets "T8" [tweet2ex] c1run7.2

/-- A record already marked deleted, for the C1 witness. -/
def recC1del : StateRecord :=
  { hash := "h", text := "x", images := [], videos := [], url := "u",
    first_seen := "F", last_seen := "L", missing_streak := 3, deleted := true }

/-- A live record (missing_streak 0, not deleted), for the C2 witness. -/
def recC2 : StateRecord :=
  { hash := "h2", text := "y", images := [], videos := [], url := "v",
    first_seen := "F2", last_seen := "L2", missing_streak := 0, deleted := false }

/-- Record with missing_streak 1, the C3 counterexample's starting
state. -/
def recC3 : StateRecord :=
  { hash := "h", text := "x", images := [], videos := [], url := "u",
    first_seen := "F", last_seen := "L", missing_streak := 1, deleted := false }

/-- Second occurrence of id "1" with different text, for the
duplicate-id part of the C3 counterexample. -/
def tweetC3b : Tweet := { id := "1", text := "b", url := "u" }

/-- First run of the C3 counterexample (id "1" absent, streak 1 -> 2). -/
def c3run1 : List (Tweet × String) × StateMap :=
  process_tweets "T1" [tweet2ex] [("1", recC3)]

/-- Second run on the same batch: streak 2 -> 3, a deletion fires. -/
def c3run2 : List (Tweet × String) × StateMap :=
  process_tweets "T2" [tweet2ex] c3run1.2

/-- First run on a batch holding id "1" twice with different content. -/
def c3dup1 : List (Tweet × String) × StateMap :=
  process_tweets "T1" [tweetC1a, tweetC3b] []

/-- Second run on the same duplicate-id batch: edits fire again. -/
def c3dup2 : List (Tweet × String) × StateMap :=
  process_tweets "T2" [tweetC1a, tweetC3b] c3dup1.2

/-- The delivery phase of `run` (src/x_monitor/main.py lines 49-64)
after reconciliation: for each (tweet, status) pair it writes the
archive entry (`StateManager.write_archive`, state.py lines 152-188;
the call in `run` has no try/except around it) and then calls the
notifier (`notify_tweet` in telegram.py, which catches its own network
errors and returns a bool), and after the loop persists the state with
`state.save()`.  `archiveOk t s = false` models `write_archive`
raising for that item; the exception propagates out of the loop, so
that item and the later ones are not notified and the save is never
reached.  The result is the list of ids actually handed to the
notifier, paired with whether the final save executed. -/
def runDeliver (archiveOk : Tweet → String → Bool) :
    List (Tweet × String) → List String × Bool
  | [] => ([], true)
  | (t, s) :: rest =>
    if archiveOk t s then
      let r := runDeliver archiveOk rest
      (t.id :: r.1, r.2)
    else ([], false)

/-- Archive writer that fails on every item. -/
def c8fail : Tweet → String → Bool := fun _ _ => false

/-- Archive writer that succeeds exactly on id "1". -/
def c8ok : Tweet → String → Bool := fun t _ => t.id == "1"

/-!
Embedding of the text pipeline of the feed normalizer
(src/x_monitor/feed.py).  The regular-expression substitutions of
`_clean_html` (lines 315-353) are implemented as left-to-right,
non-overlapping scanners over `List Char`, each matcher reproducing
the corresponding pattern; Python's `re.sub` semantics (scan from the
left, on failure advance one character) are followed.  `\s`, `str.strip`
and `str.isdigit` are modelled over ASCII.  `html.unescape` is modelled
for the five XML named entities, `&nbsp;`, and decimal/hex numeric
references, all requiring the closing semicolon; every theorem below
evaluates the pipeline only on inputs inside this subset.
-/

/-- ASCII horizontal whitespace, the regex class `[ \t]`. -/
def isHT (c : Char) : Bool := c == ' ' || c == '\t'

/-- ASCII whitespace, the regex class `\s`. -/
def isWS (c : Char) : Bool :=
  c == ' ' || c == '\t' || c == '\n' || c == '\r' || c == '\x0b' || c == '\x0c'

/-- Match the exact character sequence `pat` at the head, returning the
rest. -/
def matchExact : List Char → List Char → Option (List Char)
  | [], cs => some cs
  | _ :: _, [] => none
  | p :: ps, c :: cs => if c = p then matchExact ps cs else none

/-- Match `pat` (given lowercase) case-insensitively at the head. -/
def matchCI : List Char → List Char → Option (List Char)
  | [], cs => some cs
  | _ :: _, [] => none
  | p :: ps, c :: cs => if c.toLower = p then matchCI ps cs else none

/-- Consume `[^>]*>`: everything up to and including the first `>`. -/
def takeToGt : List Char → Option (List Char)
  | [] => none
  | '>' :: r => some r
  | _ :: r => takeToGt r

/-- Generic left-to-right non-overlapping substitution: wherever the
matcher fires, its match is replaced by `repl` and scanning resumes
after it; otherwise one character is kept and scanning advances, as
`re.sub` does.  The fuel is the remaining length, enough because every
match consumes at least one character. -/
def subAux (m : List Char → Option (List Char)) (repl : List Char) :
    Nat → List Char → List Char
  | 0, cs => cs
  | _ + 1, [] => []
  | fuel + 1, c :: cs =>
    match m (c :: cs) with
    | some rest => repl ++ subAux m repl fuel rest
    | none => c :: subAux m repl fuel cs

/-- Run a substitution over a whole character list. -/
def subAll (m : List Char → Option (List Char)) (repl : List Char)
    (cs : List Char) : List Char :=
  subAux m repl cs.length cs

/-- `<br\s*/?>` (feed.py line 332, IGNORECASE). -/
def matchBr (cs : List Char) : Option (List Char) :=
  match matchCI ['<', 'b', 'r'] cs with
  | none => none
  | some r1 =>
    match r1.dropWhile isWS with
    | '/' :: '>' :: r => some r
    | '>' :: r => some r
    | _ => none

/-- Find the pattern (case-insensitively) anywhere, returning the rest
after its first occurrence. -/
def findCI (pat : List Char) : Nat → List Char → Option (List Char)
  | 0, _ => none
  | fuel + 1, cs =>
    match matchCI pat cs with
    | some r => some r
    | none =>
      match cs with
      | [] => none
      | _ :: rest => findCI pat fuel rest

/-- `<(script|style)[^>]*>.*?</\1>` (feed.py lines 335-336,
DOTALL | IGNORECASE): opening tag up to the first `>`, then
non-greedily to the first matching closing tag. -/
def matchScriptStyle (cs : List Char) : Option (List Char) :=
  match matchCI ['<', 's', 'c', 'r', 'i', 'p', 't'] cs with
  | some r1 =>
    match takeToGt r1 with
    | some r2 =>
        findCI ['<', '/', 's', 'c', 'r', 'i', 'p', 't', '>'] (r2.length + 1) r2
    | none => none
  | none =>
    match matchCI ['<', 's', 't', 'y', 'l', 'e'] cs with
    | some r1 =>
      match takeToGt r1 with
      | some r2 =>
          findCI ['<', '/', 's', 't', 'y', 'l', 'e', '>'] (r2.length + 1) r2
      | none => none
    | none => none

/-- `<(img|video)[^>]*/?\s*>` (feed.py line 339, IGNORECASE); since
`[^>]*` absorbs slashes and whitespace, this is the opening tag up to
the first `>`. -/
def matchImgVideo (cs : List Char) : Option (List Char) :=
  match matchCI ['<', 'i', 'm', 'g'] cs with
  | some r1 => takeToGt r1
  | none =>
    match matchCI ['<', 'v', 'i', 'd', 'e', 'o'] cs with
    | some r1 => takeToGt r1
    | none => none

/-- `</video>` (feed.py line 342, IGNORECASE). -/
def matchCloseVideo (cs : List Char) : Option (List Char) :=
  matchCI ['<', '/', 'v', 'i', 'd', 'e', 'o', '>'] cs

/-- `<[^>]+>` (feed.py line 345): at least one non-`>` between the
brackets. -/
def matchTag : List Char → Option (List Char)
  | '<' :: r =>
    match r with
    | '>' :: _ => none
    | _ => takeToGt r
  | _ => none

/-- `[ \t]+` (feed.py line 348), greedy. -/
def matchHT1 : List Char → Option (List Char)
  | c :: r => if isHT c then some (r.dropWhile isHT) else none
  | [] => none

/-- `\n[ \t]+` (feed.py line 349). -/
def matchNlHT : List Char → Option (List Char)
  | '\n' :: c :: r =>
      if isHT c then some ((c :: r).dropWhile isHT) else none
  | _ => none

/-- `[ \t]+\n` (feed.py line 350): a maximal horizontal run directly
followed by a newline (shorter runs are followed by more horizontal
whitespace, so only the maximal run can match). -/
def matchHTNl : List Char → Option (List Char)
  | c :: r =>
    if isHT c then
      match (c :: r).dropWhile isHT with
      | '\n' :: rest => some rest
      | _ => none
    else none
  | [] => none

/-- `\n{3,}` (feed.py line 351), greedy. -/
def matchNl3 : List Char → Option (List Char)
  | '\n' :: '\n' :: '\n' :: r => some (r.dropWhile (· == '\n'))
  | _ => none

/-- `str.strip()` over ASCII whitespace. -/
def pyStrip (cs : List Char) : List Char :=
  ((cs.dropWhile isWS).reverse.dropWhile isWS).reverse

/-- Hexadecimal digit value. -/
def hexDigitVal (c : Char) : Nat :=
  if c.isDigit then c.toNat - 48
  else if 'a' ≤ c ∧ c ≤ 'f' then c.toNat - 87
  else c.toNat - 55

/-- Is `c` a hexadecimal digit? -/
def isHexDigit (c : Char) : Bool :=
  c.isDigit || ('a' ≤ c && c ≤ 'f') || ('A' ≤ c && c ≤ 'F')

/-- Hex value of a digit run. -/
def hexValAux : Nat → List Char → Nat
  | acc, [] => acc
  | acc, c :: cs => hexValAux (16 * acc + hexDigitVal c) cs

/-- One character reference after a `&`: the named subset or a
numeric reference, with the terminating semicolon. -/
def matchEntityAux (cs : List Char) : Option (Char × List Char) :=
  match cs with
  | 'a' :: 'm' :: 'p' :: ';' :: r => some ('&', r)
  | 'l' :: 't' :: ';' :: r => some ('<', r)
  | 'g' :: 't' :: ';' :: r => some ('>', r)
  | 'q' :: 'u' :: 'o' :: 't' :: ';' :: r => some ('"', r)
  | 'a' :: 'p' :: 'o' :: 's' :: ';' :: r => some ('\'', r)
  | 'n' :: 'b' :: 's' :: 'p' :: ';' :: r => some (' ', r)
  | '#' :: 'x' :: r =>
    match r.takeWhile isHexDigit with
    | [] => none
    | ds =>
      match r.drop ds.length with
      | ';' :: rest => some (Char.ofNat (hexValAux 0 ds), rest)
      | _ => none
  | '#' :: r =>
    match r.takeWhile (fun c => c.isDigit) with
    | [] => none
    | ds =>
      match r.drop ds.length with
      | ';' :: rest => some (Char.ofNat (digitsValAux 0 ds), rest)
      | _ => none
  | _ => none

/-- `html.unescape` on the modelled entity subset. -/
def htmlUnescapeAux : Nat → List Char → List Char
  | 0, cs => cs
  | _ + 1, [] => []
  | fuel + 1, c :: cs =>
    if c = '&' then
      match matchEntityAux cs with
      | some (ch, rest) => ch :: htmlUnescapeAux fuel rest
      | none => c :: htmlUnescapeAux fuel cs
    else c :: htmlUnescapeAux fuel cs

/-- `_clean_html` (feed.py lines 315-353): entity decoding, `<br>` to
newline, script/style blocks dropped with their contents, media tags
dropped, remaining tags dropped, whitespace normalization, strip. -/
def _clean_html (text : String) : String :=
  if text = "" then ""
  else
    let t := htmlUnescapeAux text.data.length text.data
    let t := subAll matchBr ['\n'] t
    let t := subAll matchScriptStyle [] t
    let t := subAll matchImgVideo [] t
    let t := subAll matchCloseVideo [] t
    let t := subAll matchTag [] t
    let t := subAll matchHT1 [' '] t
    let t := subAll matchNlHT ['\n'] t
    let t := subAll matchHTNl ['\n'] t
    let t := subAll matchNl3 ['\n', '\n'] t
    String.mk (pyStrip t)

/-- One entry of the raw item's `_extra.links` list (feed.py module
comment): its `type` and `content_html` fields. -/
structure RawLink where
  linkType : String
  content_html : String
deriving Repr, DecidableEq

/-- `<div\s+class=["\']rsshub-quote["\']>` (feed.py lines 275-279,
IGNORECASE; the two quote characters are matched independently). -/
def matchQuoteOpen (cs : List Char) : Option (List Char) :=
  match matchCI ['<', 'd', 'i', 'v'] cs with
  | none => none
  | some r1 =>
    match r1 with
    | c :: _ =>
      if isWS c then
        match matchCI ['c', 'l', 'a', 's', 's', '='] (r1.dropWhile isWS) with
        | none => none
        | some r3 =>
          match r3 with
          | q :: r4 =>
            if q = '"' ∨ q = '\'' then
              match matchCI ['r', 's', 's', 'h', 'u', 'b', '-', 'q', 'u', 'o',
                  't', 'e'] r4 with
              | none => none
              | some r5 =>
                match r5 with
                | q2 :: '>' :: r6 =>
                    if q2 = '"' ∨ q2 = '\'' then some r6 else none
                | _ => none
            else none
          | [] => none
      else none
    | [] => none

/-- Split at the first `</div>` (case-insensitive): the group `(.*?)`
and the rest after the closing tag. -/
def splitAtCloseDiv : Nat → List Char → Option (List Char × List Char)
  | 0, _ => none
  | fuel + 1, cs =>
    match matchCI ['<', '/', 'd', 'i', 'v', '>'] cs with
    | some r => some ([], r)
    | none =>
      match cs with
      | [] => none
      | c :: rest =>
        (splitAtCloseDiv fuel rest).map (fun x => (c :: x.1, x.2))

/-- Leftmost match of the quote-div pattern with its group: before the
match, the group, and after `</div>`.  When an opening tag has no
closing `</div>` the engine advances one character, as `re.search`
does. -/
def findQuoteDiv : Nat → List Char → Option (List Char × List Char × List Char)
  | 0, _ => none
  | fuel + 1, cs =>
    match matchQuoteOpen cs with
    | some afterOpen =>
      match splitAtCloseDiv (afterOpen.length + 1) afterOpen with
      | some x => some ([], x.1, x.2)
      | none =>
        match cs with
        | [] => none
        | c :: rest =>
          (findQuoteDiv fuel rest).map (fun y => (c :: y.1, y.2.1, y.2.2))
    | none =>
      match cs with
      | [] => none
      | c :: rest =>
        (findQuoteDiv fuel rest).map (fun y => (c :: y.1, y.2.1, y.2.2))

/-- `re.search(r'<strong>([^<]+)</strong>', s)` (feed.py lines 285,
303-304; case-sensitive): the group of the first match. -/
def findStrong : Nat → List Char → Option (List Char)
  | 0, _ => none
  | _ + 1, [] => none
  | fuel + 1, c :: rest =>
    match matchExact ['<', 's', 't', 'r', 'o', 'n', 'g', '>'] (c :: rest) with
    | some r =>
      let inner := r.takeWhile (fun ch => ch ≠ '<')
      if inner.isEmpty then findStrong fuel rest
      else
        match matchExact ['<', '/', 's', 't', 'r', 'o', 'n', 'g', '>']
            (r.drop inner.length) with
        | some _ => some inner
        | none => findStrong fuel rest
    | none => findStrong fuel rest

/-- Method 2 of quote-author extraction (feed.py lines 296-307): the
first link of type "quote"; if its `content_html` is non-empty, the
first `<strong>` group, stripped. -/
def quoteAuthorFromLinks (links : List RawLink) : Option String :=
  match links.find? (fun l => l.linkType == "quote") with
  | some l =>
    if l.content_html ≠ "" then
      (findStrong (l.content_html.data.length + 1) l.content_html.data).map
        (fun x => String.mk (pyStrip x))
    else none
  | none => none

/-- `_parse_content` (feed.py lines 253-312): decode entities, split
out the first rsshub-quote div (its author from the first `<strong>`,
its text cleaned), fall back to the `_extra.links` quote entry for the
author, clean the remaining main text.  Returns
(main text, quote author, quote text). -/
def _parse_content (html_content : String) (links : List RawLink) :
    String × Option String × Option String :=
  let content := htmlUnescapeAux html_content.data.length html_content.data
  match findQuoteDiv (content.length + 1) content with
  | some x =>
    let qa0 := (findStrong (x.2.1.length + 1) x.2.1).map
      (fun l => String.mk (pyStrip l))
    let qt := some (_clean_html (String.mk x.2.1))
    let mainT := _clean_html (String.mk (x.1 ++ x.2.2))
    let qa := match qa0 with
      | some a => some a
      | none => quoteAuthorFromLinks links
    (mainT, qa, qt)
  | none =>
    (_clean_html (String.mk content), quoteAuthorFromLinks links, none)

/-- The text computation of `_parse_item` (feed.py lines 142-159):
`base_html` is whichever of `content_html` and `summary` has the
greater RAW length (ties to `content_html`); the text is derived from
it by `_parse_content`, and the cleaned title replaces it only when
non-empty and strictly longer.  Media extraction and the remaining
returned fields do not influence the text. -/
def parseItemText (contentHtml summary title : String)
    (links : List RawLink) : String :=
  let base_html := if summary.length ≤ contentHtml.length then contentHtml
    else summary
  let text0 := (_parse_content base_html links).1
  let title_clean := _clean_html title
  if title_clean ≠ "" ∧ text0.length < title_clean.length then title_clean
  else text0

-- ===================== Theorems =====================

theorem processMissing_eq (now : String) (ids : List String) (st : StateMap) :
    processMissing now ids st =
      (st.filterMap (missingNotif now ids), st.map (missingStep now ids)) := by
  induction st with
  | nil => rfl
  | cons p rest ih =>
    by_cases h1 : p.1 ∈ ids
    · simp [processMissing, missingNotif, missingStep, h1, ih]
    · by_cases h2 : p.2.deleted
      · simp [processMissing, missingNotif, missingStep, h1, h2, ih]
      · by_cases h3 : p.2.missing_streak + 1 ≥ 3
        · simp [processMissing, missingNotif, missingStep, h1, h2, h3, ih]
        · simp [processMissing, missingNotif, missingStep, h1, h2, h3, ih]

theorem fst_missingStep (now : String) (ids : List String) (p : String × StateRecord) :
    (missingStep now ids p).1 = p.1 := by
  unfold missingStep
  split_ifs <;> rfl

theorem keys_processMissing (now : String) (ids : List String) (st : StateMap) :
    keys (processMissing now ids st).2 = keys st := by
  rw [processMissing_eq]
  simp only [keys, List.map_map]
  exact List.map_congr_left (fun p _ => fst_missingStep now ids p)

theorem mem_keys_setRec (st : StateMap) (k : String) (v : StateRecord) (m : String) :
    m ∈ keys (setRec st k v) ↔ m = k ∨ m ∈ keys st := by
  induction st with
  | nil => simp [setRec, keys]
  | cons p rest ih =>
    by_cases hp : p.1 = k
    · simp [setRec, hp, keys]
    · simp only [setRec, if_neg hp, keys, List.map_cons, List.mem_cons] at ih ⊢
      tauto

theorem mem_keys_processCurrent (now : String) (tweets : List Tweet) :
    ∀ (st : StateMap) (m : String),
      m ∈ keys (processCurrent now tweets st).2 ↔
        m ∈ keys st ∨ m ∈ tweets.map (fun t => t.id) := by
  induction tweets with
  | nil => intro st m; simp [processCurrent]
  | cons t rest ih =>
    intro st m
    cases hl : lookupRec st t.id with
    | none =>
      simp only [processCurrent, hl, List.map_cons, List.mem_cons]
      rw [ih, mem_keys_setRec]
      tauto
    | some rec =>
      simp only [processCurrent, hl, List.map_cons, List.mem_cons]
      rw [ih, mem_keys_setRec]
      tauto

/-- C9: reconciliation never removes a record: the key set of the state
returned by `process_tweets` is the old key set united with the ids of
the batch. -/
theorem C9_state_keys (now : String) (tweets : List Tweet) (st : StateMap)
    (m : String) :
    m ∈ keys (process_tweets now tweets st).2 ↔
      m ∈ keys st ∨ m ∈ tweets.map (fun t => t.id) := by
  show m ∈ keys (processMissing now (tweets.map (fun t => t.id))
      (processCurrent now tweets st).2).2 ↔ _
  rw [keys_processMissing, mem_keys_processCurrent]

/-- C5: the fingerprint depends only on text, images and videos: items
agreeing on those three fields get identical hashes whatever their id,
url, timestamp, retweet flag, quote fields or author fields are. -/
theorem C5_fingerprint_noninterference (a b : Tweet)
    (ht : a.text = b.text) (hi : a.images = b.images) (hv : a.videos = b.videos) :
    content_hash a = content_hash b := by
  simp [content_hash, ht, hi, hv]

/-- Witness for C5 at two concrete items differing in every
presentation-only field. -/
theorem C5_witness :
    (tweetC5a.text = tweetC5b.text ∧ tweetC5a.images = tweetC5b.images ∧
      tweetC5a.videos = tweetC5b.videos ∧ tweetC5a.id ≠ tweetC5b.id ∧
      tweetC5a.timestamp ≠ tweetC5b.timestamp) ∧
    content_hash tweetC5a = content_hash tweetC5b :=
  ⟨⟨rfl, rfl, rfl, by decide, by decide⟩,
    C5_fingerprint_noninterference tweetC5a tweetC5b rfl rfl rfl⟩

/-- C4: the notification list returned by `process_tweets` is always
sorted ascending by the numeric key of the item id (`idKey`, which maps
a non-digit id to 0), and a batch with new ids "10" and "2" is reported
as ["2", "10"] in either batch order. -/
theorem C4_notifications_sorted :
    (∀ (now : String) (tweets : List Tweet) (st : StateMap),
        List.Sorted keyLe (process_tweets now tweets st).1) ∧
    idKey "abc" = 0 ∧ idKey "10" = 10 ∧
    (process_tweets "T" [tweet10ex, tweet2ex] []).1.map (fun p => p.1.id)
      = ["2", "10"] ∧
    (process_tweets "T" [tweet2ex, tweet10ex] []).1.map (fun p => p.1.id)
      = ["2", "10"] := by
  refine ⟨?_, by decide, by decide, by decide, by decide⟩
  intro now tweets st
  exact List.sorted_insertionSort keyLe _

/-- C6 counterexample: the pre-hash strings do NOT always separate the
two groups — an empty-text item whose single image URL is "||" produces
exactly the same pre-hash string ("||||||") as an item with text "||"
and no media, so the claimed by-construction separation fails. -/
theorem C6_counterexample :
    tweetC6a.text = "" ∧ tweetC6a.images.length = 1 ∧ tweetC6a.videos = [] ∧
    tweetC6b.text ≠ "" ∧ tweetC6b.images = [] ∧ tweetC6b.videos = [] ∧
    content_hash tweetC6a = content_hash tweetC6b := by
  refine ⟨rfl, rfl, rfl, by decide, rfl, rfl, by decide⟩

/-- C6 amended: if the single image URL contains no separator character
'|', then an empty-text one-image item and a non-empty-text no-media
item always get distinct pre-hash strings. -/
theorem C6_group_separation_amended (a b : Tweet) (i : String)
    (hat : a.text = "") (hai : a.images = [i]) (hav : a.videos = [])
    (hib : ∀ c ∈ i.data, c ≠ '|')
    (hbt : b.text ≠ "") (hbi : b.images = []) (hbv : b.videos = []) :
    content_hash a ≠ content_hash b := by
  intro heq
  have hd := congrArg String.data heq
  simp [content_hash, hat, hai, hav, hbi, hbv, joinBar, String.data_append] at hd
  have hrev := congrArg List.reverse hd
  simp [List.reverse_append] at hrev
  cases hrd : i.data.reverse with
  | nil =>
    rw [hrd] at hrev
    simp at hrev
    apply hbt
    have hb : b.text.data = [] := by
      have := congrArg List.reverse hrev
      simpa using this.symm
    cases hbe : b.text with
    | mk d => rw [hbe] at hb; simp at hb; simp [hb]
  | cons c rest =>
    rw [hrd, List.cons_append] at hrev
    have hc : c = '|' := by
      injection hrev with h1 _
    have hmem : c ∈ i.data := by
      rw [← List.mem_reverse, hrd]
      exact List.mem_cons_self _ _
    exact hib c hmem hc

/-- Witness for the amended C6 at a concrete separator-free pair. -/
theorem C6_witness :
    (tweetC6c.text = "" ∧ tweetC6c.images = ["img.png"] ∧
      tweetC6c.videos = [] ∧ (∀ c ∈ ("img.png" : String).data, c ≠ '|') ∧
      tweetC6d.text ≠ "" ∧ tweetC6d.images = [] ∧ tweetC6d.videos = []) ∧
    content_hash tweetC6c ≠ content_hash tweetC6d :=
  ⟨⟨rfl, rfl, rfl, by decide, by decide, rfl, rfl⟩,
    C6_group_separation_amended tweetC6c tweetC6d "img.png" rfl rfl rfl
      (by decide) (by decide) rfl rfl⟩

theorem process_tweets_def (now : String) (ts : List Tweet) (st : StateMap) :
    process_tweets now ts st =
      (sortByKey ((processCurrent now ts st).1 ++
          (processMissing now (ts.map (fun t => t.id))
            (processCurrent now ts st).2).1),
        (processMissing now (ts.map (fun t => t.id))
          (processCurrent now ts st).2).2) := rfl

theorem lookupRec_setRec_self (st : StateMap) (k : String) (v : StateRecord) :
    lookupRec (setRec st k v) k = some v := by
  induction st with
  | nil => simp [setRec, lookupRec]
  | cons p rest ih =>
    by_cases hp : p.1 = k
    · simp [setRec, hp, lookupRec]
    · simp [setRec, hp, lookupRec, ih]

theorem lookupRec_setRec_ne (st : StateMap) (k : String) (v : StateRecord)
    (m : String) (hmk : k ≠ m) :
    lookupRec (setRec st k v) m = lookupRec st m := by
  induction st with
  | nil => simp [setRec, lookupRec, hmk]
  | cons p rest ih =>
    by_cases hp : p.1 = k
    · simp [setRec, hp, lookupRec, hmk]
    · by_cases hm : p.1 = m
      · simp [setRec, hp, lookupRec, hm, Ne.symm hmk]
      · simp [setRec, hp, lookupRec, hm, ih]

theorem mem_setRec (st : StateMap) (k : String) (v : StateRecord)
    (p : String × StateRecord) (hp : p ∈ setRec st k v) :
    p = (k, v) ∨ p ∈ st := by
  induction st with
  | nil => simpa [setRec] using hp
  | cons q rest ih =>
    by_cases hq : q.1 = k
    · rw [setRec, if_pos hq] at hp
      rcases List.mem_cons.mp hp with h | h
      · exact Or.inl h
      · exact Or.inr (List.mem_cons_of_mem q h)
    · rw [setRec, if_neg hq] at hp
      rcases List.mem_cons.mp hp with h | h
      · exact Or.inr (h ▸ List.mem_cons_self q rest)
      · rcases ih h with h' | h'
        · exact Or.inl h'
        · exact Or.inr (List.mem_cons_of_mem q h')

theorem lookupRec_eq_none (st : StateMap) (k : String) :
    lookupRec st k = none ↔ k ∉ keys st := by
  induction st with
  | nil => simp [lookupRec, keys]
  | cons p rest ih =>
    by_cases hp : p.1 = k
    · simp [lookupRec, hp, keys]
    · simp [lookupRec, hp, keys, ih, Ne.symm hp]

theorem keys_setRec_mem (st : StateMap) (k : String) (v : StateRecord)
    (hk : k ∈ keys st) : keys (setRec st k v) = keys st := by
  induction st with
  | nil => simp [keys] at hk
  | cons p rest ih =>
    by_cases hp : p.1 = k
    · simp [setRec, hp, keys]
    · have hk' : k ∈ keys rest := by
        rcases List.mem_cons.mp hk with h | h
        · exact absurd h.symm hp
        · exact h
      have h2 := ih hk'
      simp only [keys] at h2
      simp [setRec, hp, keys, h2]

theorem keys_setRec_not_mem (st : StateMap) (k : String) (v : StateRecord)
    (hk : k ∉ keys st) : keys (setRec st k v) = keys st ++ [k] := by
  induction st with
  | nil => simp [setRec, keys]
  | cons p rest ih =>
    have hp : p.1 ≠ k := by
      intro h
      exact hk (by simp [keys, h])
    have hk' : k ∉ keys rest := by
      intro h
      apply hk
      simp only [keys, List.map_cons]
      exact List.mem_cons_of_mem _ h
    have h2 := ih hk'
    simp only [keys] at h2
    simp [setRec, hp, keys, h2]

theorem processCurrent_lookup_not_mem (now : String) (ts : List Tweet) :
    ∀ (st : StateMap) (k : String), k ∉ ts.map (fun t => t.id) →
      lookupRec (processCurrent now ts st).2 k = lookupRec st k := by
  induction ts with
  | nil => intro st k _; rfl
  | cons t rest ih =>
    intro st k hk
    have hkt : t.id ≠ k := by
      intro h
      exact hk (by simp [h])
    have hkr : k ∉ rest.map (fun t => t.id) := by
      intro h
      exact hk (by simp [h])
    cases hl : lookupRec st t.id with
    | none =>
      simp only [processCurrent, hl]
      rw [ih _ k hkr, lookupRec_setRec_ne _ _ _ _ hkt]
    | some rec =>
      simp only [processCurrent, hl]
      rw [ih _ k hkr, lookupRec_setRec_ne _ _ _ _ hkt]

theorem processCurrent_mem_state (now : String) (ts : List Tweet) :
    ∀ (st : StateMap) (p : String × StateRecord),
      p ∈ (processCurrent now ts st).2 →
        p.1 ∈ ts.map (fun t => t.id) ∨ p ∈ st := by
  induction ts with
  | nil => intro st p hp; exact Or.inr hp
  | cons t rest ih =>
    intro st p hp
    cases hl : lookupRec st t.id with
    | none =>
      simp only [processCurrent, hl] at hp
      rcases ih _ p hp with h | h
      · exact Or.inl (by simp at h ⊢; exact Or.inr h)
      · rcases mem_setRec _ _ _ _ h with h' | h'
        · exact Or.inl (by simp [h'])
        · exact Or.inr h'
    | some rec =>
      simp only [processCurrent, hl] at hp
      rcases ih _ p hp with h | h
      · exact Or.inl (by simp at h ⊢; exact Or.inr h)
      · rcases mem_setRec _ _ _ _ h with h' | h'
        · exact Or.inl (by simp [h'])
        · exact Or.inr h'

theorem processCurrent_notif_mem (now : String) (ts : List Tweet) :
    ∀ (st : StateMap) (q : Tweet × String),
      q ∈ (processCurrent now ts st).1 → q.1 ∈ ts := by
  induction ts with
  | nil => intro st q hq; simp [processCurrent] at hq
  | cons t rest ih =>
    intro st q hq
    cases hl : lookupRec st t.id with
    | none =>
      simp only [processCurrent, hl] at hq
      rcases List.mem_cons.mp hq with h | h
      · simp [h]
      · exact List.mem_cons_of_mem _ (ih _ q h)
    | some rec =>
      simp only [processCurrent, hl] at hq
      by_cases hh : rec.hash ≠ content_hash t
      · rw [if_pos hh] at hq
        rcases List.mem_cons.mp hq with h | h
        · simp [h]
        · exact List.mem_cons_of_mem _ (ih _ q h)
      · rw [if_neg hh] at hq
        exact List.mem_cons_of_mem _ (ih _ q hq)

theorem processCurrent_hash_lookup (now : String) (ts : List Tweet)
    (hnd : (ts.map (fun t => t.id)).Nodup) :
    ∀ (st : StateMap), ∀ t ∈ ts,
      ∃ r, lookupRec (processCurrent now ts st).2 t.id = some r ∧
        r.hash = content_hash t ∧ r.missing_streak = 0 ∧ r.deleted = false := by
  induction ts with
  | nil => intro st t ht; simp at ht
  | cons u rest ih =>
    rw [List.map_cons] at hnd
    have hu := (List.nodup_cons.mp hnd).1
    have hndr := (List.nodup_cons.mp hnd).2
    intro st t ht
    rcases List.mem_cons.mp ht with hteq | htr
    · subst hteq
      cases hl : lookupRec st t.id with
      | none =>
        simp only [processCurrent, hl]
        rw [processCurrent_lookup_not_mem now rest _ t.id hu,
          lookupRec_setRec_self]
        exact ⟨_, rfl, rfl, rfl, rfl⟩
      | some rec =>
        simp only [processCurrent, hl]
        rw [processCurrent_lookup_not_mem now rest _ t.id hu,
          lookupRec_setRec_self]
        exact ⟨_, rfl, rfl, rfl, rfl⟩
    · cases hl : lookupRec st u.id with
      | none =>
        simp only [processCurrent, hl]
        exact ih hndr _ t htr
      | some rec =>
        simp only [processCurrent, hl]
        exact ih hndr _ t htr

theorem processCurrent_no_notif (now : String) (ts : List Tweet)
    (hnd : (ts.map (fun t => t.id)).Nodup) :
    ∀ (st : StateMap),
      (∀ t ∈ ts, ∃ r, lookupRec st t.id = some r ∧ r.hash = content_hash t) →
      (processCurrent now ts st).1 = [] := by
  induction ts with
  | nil => intro st _; rfl
  | cons u rest ih =>
    rw [List.map_cons] at hnd
    have hu := (List.nodup_cons.mp hnd).1
    have hndr := (List.nodup_cons.mp hnd).2
    intro st hst
    rcases hst u (List.mem_cons_self u rest) with ⟨r, hl, hh⟩
    simp only [processCurrent, hl]
    rw [if_neg (by simpa using hh)]
    apply ih hndr
    intro t ht
    rcases hst t (List.mem_cons_of_mem u ht) with ⟨r', hl', hh'⟩
    refine ⟨r', ?_, hh'⟩
    rw [lookupRec_setRec_ne]
    · exact hl'
    · intro h
      exact hu (h ▸ (List.mem_map.mpr ⟨t, ht, rfl⟩))

theorem missingNotif_eq_some (now : String) (ids : List String)
    (p : String × StateRecord) (q : Tweet × String)
    (h : missingNotif now ids p = some q) :
    q = (deletedTweet p.1 p.2 now, "deleted") := by
  unfold missingNotif at h
  split at h
  · exact absurd h (by simp)
  · split at h
    · exact absurd h (by simp)
    · split at h
      · injection h with h'
        exact h'.symm
      · exact absurd h (by simp)

theorem lookupRec_map_missingStep (now : String) (ids : List String) :
    ∀ (st : StateMap) (k : String),
      lookupRec (st.map (missingStep now ids)) k =
        (lookupRec st k).map (fun r => (missingStep now ids (k, r)).2) := by
  intro st
  induction st with
  | nil => intro k; rfl
  | cons p rest ih =>
    intro k
    rcases p with ⟨a, r⟩
    by_cases hp : a = k
    · subst hp
      simp [lookupRec, fst_missingStep]
    · simp [lookupRec, fst_missingStep, hp, ih]

theorem filtId_append (i : String) (l₁ l₂ : List (Tweet × String)) :
    filtId i (l₁ ++ l₂) = filtId i l₁ ++ filtId i l₂ := by
  simp [filtId]

theorem filtId_sortByKey (i : String) (l : List (Tweet × String)) :
    List.Perm (filtId i (sortByKey l)) (filtId i l) :=
  (List.perm_insertionSort keyLe l).filter _

theorem filtId_filterMap (now : String) (ids : List String) (i : String) :
    ∀ st : StateMap,
      filtId i (st.filterMap (missingNotif now ids)) =
        (st.filter (fun p => p.1 = i)).filterMap (missingNotif now ids) := by
  intro st
  induction st with
  | nil => rfl
  | cons p rest ih =>
    by_cases hp : p.1 = i
    · cases hn : missingNotif now ids p with
      | none => simp [hn, hp, ih]
      | some q =>
        have hq := missingNotif_eq_some now ids p q hn
        have hqi : q.1.id = i := by rw [hq]; simpa [deletedTweet] using hp
        simp only [List.filterMap_cons, hn, List.filter_cons, hp]
        simp only [filtId, List.filter_cons, hqi, if_pos] at ih ⊢
        simp [List.filterMap_cons, hn, ih, hqi]
    · cases hn : missingNotif now ids p with
      | none => simp [hn, hp, ih]
      | some q =>
        have hq := missingNotif_eq_some now ids p q hn
        have hqi : ¬ q.1.id = i := by rw [hq]; simpa [deletedTweet] using hp
        simp only [filtId] at ih ⊢
        simp [List.filterMap_cons, hn, List.filter_cons, hp, hqi, ih]

theorem filter_key_of_lookup (st : StateMap) (i : String) (r : StateRecord)
    (hnd : (keys st).Nodup) (hl : lookupRec st i = some r) :
    st.filter (fun p => p.1 = i) = [(i, r)] := by
  induction st with
  | nil => simp [lookupRec] at hl
  | cons p rest ih =>
    rw [keys, List.map_cons] at hnd
    have hnd1 := (List.nodup_cons.mp hnd).1
    have hnd2 := (List.nodup_cons.mp hnd).2
    by_cases hp : p.1 = i
    · rw [lookupRec, if_pos hp] at hl
      injection hl with hlr
      have hrest : rest.filter (fun p => p.1 = i) = [] := by
        rw [List.filter_eq_nil_iff]
        intro q hq hqi
        apply hnd1
        rw [hp]
        simp at hqi
        exact hqi ▸ List.mem_map.mpr ⟨q, hq, rfl⟩
      rcases p with ⟨a, rr⟩
      simp only at hp hlr
      subst hp
      subst hlr
      simp [List.filter_cons, hrest]
    · rw [lookupRec, if_neg hp] at hl
      simp [List.filter_cons, hp, ih hnd2 hl]

theorem filter_key_of_none (st : StateMap) (i : String)
    (hl : lookupRec st i = none) :
    st.filter (fun p => p.1 = i) = [] := by
  rw [List.filter_eq_nil_iff]
  intro q hq hqi
  rw [lookupRec_eq_none] at hl
  apply hl
  simp at hqi
  exact hqi ▸ List.mem_map.mpr ⟨q, hq, rfl⟩

theorem filterMap_singleton_toList (f : String × StateRecord → Option (Tweet × String))
    (x : String × StateRecord) :
    List.filterMap f [x] = (f x).toList := by
  cases h : f x <;> simp [List.filterMap_cons, h]

theorem lookupRec_some_mem (st : StateMap) (k : String) (r : StateRecord)
    (hl : lookupRec st k = some r) : k ∈ keys st := by
  by_contra h
  rw [← lookupRec_eq_none] at h
  rw [hl] at h
  exact Option.noConfusion h

theorem keys_processCurrent_nodup (now : String) (ts : List Tweet) :
    ∀ st : StateMap, (keys st).Nodup →
      (keys (processCurrent now ts st).2).Nodup := by
  induction ts with
  | nil => intro st h; exact h
  | cons t rest ih =>
    intro st h
    cases hl : lookupRec st t.id with
    | none =>
      simp only [processCurrent, hl]
      apply ih
      rw [keys_setRec_not_mem _ _ _ ((lookupRec_eq_none st t.id).mp hl)]
      refine List.Nodup.append h (List.nodup_singleton _) ?_
      intro a ha hb
      simp at hb
      subst hb
      exact (lookupRec_eq_none st t.id).mp hl ha
    | some rec =>
      simp only [processCurrent, hl]
      apply ih
      rw [keys_setRec_mem _ _ _ (lookupRec_some_mem st t.id rec hl)]
      exact h

theorem keys_process_tweets_nodup (now : String) (ts : List Tweet)
    (st : StateMap) (h : (keys st).Nodup) :
    (keys (process_tweets now ts st).2).Nodup := by
  rw [process_tweets_def]
  simp only
  rw [keys_processMissing]
  exact keys_processCurrent_nodup now ts st h

/-- One reconciliation pass, seen from a single id that is absent from
the batch: its record is transformed by `missingStep`, and the
notifications concerning it are exactly those `missingNotif` yields. -/
theorem run_missing_record (now : String) (ts : List Tweet) (st : StateMap)
    (i : String) (r : StateRecord)
    (hnd : (keys st).Nodup)
    (hi : ∀ t ∈ ts, t.id ≠ i)
    (hl : lookupRec st i = some r) :
    lookupRec (process_tweets now ts st).2 i =
      some (missingStep now (ts.map (fun t => t.id)) (i, r)).2 ∧
    filtId i (process_tweets now ts st).1 =
      (missingNotif now (ts.map (fun t => t.id)) (i, r)).toList := by
  have hnotmem : i ∉ ts.map (fun t => t.id) := by
    intro h
    rcases List.mem_map.mp h with ⟨t, ht, hid⟩
    exact hi t ht hid
  have hph1 : lookupRec (processCurrent now ts st).2 i = some r := by
    rw [processCurrent_lookup_not_mem now ts st i hnotmem]
    exact hl
  constructor
  · rw [process_tweets_def]
    simp only
    rw [processMissing_eq]
    simp only
    rw [lookupRec_map_missingStep, hph1]
    rfl
  · rw [process_tweets_def]
    simp only
    rw [processMissing_eq]
    simp only
    have hperm := filtId_sortByKey i ((processCurrent now ts st).1 ++
      List.filterMap (missingNotif now (ts.map (fun t => t.id)))
        (processCurrent now ts st).2)
    rw [filtId_append] at hperm
    have h1 : filtId i (processCurrent now ts st).1 = [] := by
      rw [filtId, List.filter_eq_nil_iff]
      intro q hq hqi
      simp at hqi
      exact hi q.1 (processCurrent_notif_mem now ts st q hq) hqi
    rw [h1, List.nil_append] at hperm
    rw [filtId_filterMap, filter_key_of_lookup _ _ _
      (keys_processCurrent_nodup now ts st hnd) hph1,
      filterMap_singleton_toList] at hperm
    cases hn : missingNotif now (ts.map (fun t => t.id)) (i, r) with
    | none =>
      rw [hn] at hperm
      simpa using List.Perm.eq_nil (by simpa using hperm)
    | some q =>
      rw [hn] at hperm
      simpa using List.perm_singleton.mp (by simpa using hperm)

/-- C1 counterexample: the deleted flag is NOT terminal.  Id "1" is
deleted at cycle 4; when it reappears in the batch at cycle 5 the
update loop resets `deleted` to false (state.py line 116), and after
three further absences cycle 8 emits a second "deleted" notification
for the same id. -/
theorem C1_counterexample :
    (lookupRec c1run4.2 "1").map StateRecord.deleted = some true ∧
    (lookupRec c1run5.2 "1").map StateRecord.deleted = some false ∧
    (filtId "1" c1run4.1).map Prod.snd = ["deleted"] ∧
    (filtId "1" c1run8.1).map Prod.snd = ["deleted"] :=
  ⟨by decide, by decide, by decide, by decide⟩

/-- C1 amended: the deleted flag is terminal only while the id stays
out of the batch: a reconcile call whose batch does not contain the id
leaves a deleted record completely unchanged and emits no notification
for it. -/
theorem C1_deleted_stays_when_absent (now : String) (ts : List Tweet)
    (st : StateMap) (i : String) (r : StateRecord)
    (hnd : (keys st).Nodup)
    (hi : ∀ t ∈ ts, t.id ≠ i)
    (hl : lookupRec st i = some r)
    (hdel : r.deleted = true) :
    lookupRec (process_tweets now ts st).2 i = some r ∧
    filtId i (process_tweets now ts st).1 = [] := by
  have hnm : i ∉ ts.map (fun t => t.id) := by
    intro h
    rcases List.mem_map.mp h with ⟨t, ht, hid⟩
    exact hi t ht hid
  have h := run_missing_record now ts st i r hnd hi hl
  refine ⟨?_, ?_⟩
  · rw [h.1]
    simp [missingStep, hnm, hdel]
  · rw [h.2]
    simp [missingNotif, hnm, hdel]

/-- Witness for the amended C1 with a concrete deleted record. -/
theorem C1_witness :
    ((keys [(("1" : String), recC1del)]).Nodup ∧
      (∀ t ∈ [tweet2ex], t.id ≠ "1") ∧
      lookupRec [("1", recC1del)] "1" = some recC1del ∧
      recC1del.deleted = true) ∧
    (lookupRec (process_tweets "T" [tweet2ex] [("1", recC1del)]).2 "1"
        = some recC1del ∧
      filtId "1" (process_tweets "T" [tweet2ex] [("1", recC1del)]).1 = []) :=
  ⟨⟨by decide, by decide, by decide, rfl⟩,
    C1_deleted_stays_when_absent "T" [tweet2ex] [("1", recC1del)] "1" recC1del
      (by decide) (by decide) (by decide) rfl⟩

/-- C2: deletion debounce.  For an id present in state with
missing_streak 0 and deleted false, and absent from four consecutive
batches: the first two reconcile calls emit no notification for it
(missing_streak 1 then 2), the third emits exactly one deletion
notification synthesized from the stored snapshot and marks the record
deleted with missing_streak 3, and the fourth emits nothing. -/
theorem C2_deletion_debounce (n1 n2 n3 n4 : String)
    (b1 b2 b3 b4 : List Tweet) (st : StateMap) (i : String) (r : StateRecord)
    (hnd : (keys st).Nodup)
    (hl : lookupRec st i = some r)
    (hms : r.missing_streak = 0) (hdel : r.deleted = false)
    (h1 : ∀ t ∈ b1, t.id ≠ i) (h2 : ∀ t ∈ b2, t.id ≠ i)
    (h3 : ∀ t ∈ b3, t.id ≠ i) (h4 : ∀ t ∈ b4, t.id ≠ i) :
    filtId i (process_tweets n1 b1 st).1 = [] ∧
    lookupRec (process_tweets n1 b1 st).2 i
      = some { r with missing_streak := 1 } ∧
    filtId i (process_tweets n2 b2 (process_tweets n1 b1 st).2).1 = [] ∧
    lookupRec (process_tweets n2 b2 (process_tweets n1 b1 st).2).2 i
      = some { r with missing_streak := 2 } ∧
    filtId i (process_tweets n3 b3
        (process_tweets n2 b2 (process_tweets n1 b1 st).2).2).1
      = [(deletedTweet i { r with missing_streak := 2 } n3, "deleted")] ∧
    lookupRec (process_tweets n3 b3
        (process_tweets n2 b2 (process_tweets n1 b1 st).2).2).2 i
      = some { r with missing_streak := 3, deleted := true, last_seen := n3 } ∧
    filtId i (process_tweets n4 b4 (process_tweets n3 b3
        (process_tweets n2 b2 (process_tweets n1 b1 st).2).2).2).1 = [] := by
  have mk1 : i ∉ b1.map (fun t => t.id) := by
    intro h
    rcases List.mem_map.mp h with ⟨t, ht, hid⟩
    exact h1 t ht hid
  have mk2 : i ∉ b2.map (fun t => t.id) := by
    intro h
    rcases List.mem_map.mp h with ⟨t, ht, hid⟩
    exact h2 t ht hid
  have mk3 : i ∉ b3.map (fun t => t.id) := by
    intro h
    rcases List.mem_map.mp h with ⟨t, ht, hid⟩
    exact h3 t ht hid
  have mk4 : i ∉ b4.map (fun t => t.id) := by
    intro h
    rcases List.mem_map.mp h with ⟨t, ht, hid⟩
    exact h4 t ht hid
  have s1 := run_missing_record n1 b1 st i r hnd h1 hl
  have f1 : filtId i (process_tweets n1 b1 st).1 = [] := by
    rw [s1.2]
    simp [missingNotif, mk1, hdel, hms]
  have l1 : lookupRec (process_tweets n1 b1 st).2 i
      = some { r with missing_streak := 1 } := by
    rw [s1.1]
    simp [missingStep, mk1, hdel, hms]
  have hnd1 := keys_process_tweets_nodup n1 b1 st hnd
  have s2 := run_missing_record n2 b2 _ i { r with missing_streak := 1 }
    hnd1 h2 l1
  have f2 : filtId i (process_tweets n2 b2 (process_tweets n1 b1 st).2).1
      = [] := by
    rw [s2.2]
    simp [missingNotif, mk2, hdel]
  have l2 : lookupRec (process_tweets n2 b2 (process_tweets n1 b1 st).2).2 i
      = some { r with missing_streak := 2 } := by
    rw [s2.1]
    simp [missingStep, mk2, hdel]
  have hnd2 := keys_process_tweets_nodup n2 b2 _ hnd1
  have s3 := run_missing_record n3 b3 _ i { r with missing_streak := 2 }
    hnd2 h3 l2
  have f3 : filtId i (process_tweets n3 b3
      (process_tweets n2 b2 (process_tweets n1 b1 st).2).2).1
      = [(deletedTweet i { r with missing_streak := 2 } n3, "deleted")] := by
    rw [s3.2]
    simp [missingNotif, mk3, hdel]
  have l3 : lookupRec (process_tweets n3 b3
      (process_tweets n2 b2 (process_tweets n1 b1 st).2).2).2 i
      = some { r with missing_streak := 3, deleted := true, last_seen := n3 } := by
    rw [s3.1]
    simp [missingStep, mk3, hdel]
  have hnd3 := keys_process_tweets_nodup n3 b3 _ hnd2
  have s4 := run_missing_record n4 b4 _ i
    { r with missing_streak := 3, deleted := true, last_seen := n3 } hnd3 h4 l3
  have f4 : filtId i (process_tweets n4 b4 (process_tweets n3 b3
      (process_tweets n2 b2 (process_tweets n1 b1 st).2).2).2).1 = [] := by
    rw [s4.2]
    simp [missingNotif, mk4]
  exact ⟨f1, l1, f2, l2, f3, l3, f4⟩

/-- Witness for C2 on a concrete one-record state and concrete batches. -/
theorem C2_witness :
    ((keys [(("1" : String), recC2)]).Nodup ∧
      lookupRec [("1", recC2)] "1" = some recC2 ∧
      recC2.missing_streak = 0 ∧ recC2.deleted = false ∧
      (∀ t ∈ [tweet2ex], t.id ≠ "1")) ∧
    filtId "1" (process_tweets "T3" [tweet2ex] (process_tweets "T2" [tweet2ex]
        (process_tweets "T1" [tweet2ex] [("1", recC2)]).2).2).1
      = [(deletedTweet "1" { recC2 with missing_streak := 2 } "T3", "deleted")] ∧
    filtId "1" (process_tweets "T4" [tweet2ex] (process_tweets "T3" [tweet2ex]
        (process_tweets "T2" [tweet2ex]
          (process_tweets "T1" [tweet2ex] [("1", recC2)]).2).2).2).1 = [] :=
  ⟨⟨by decide, by decide, rfl, rfl, by decide⟩,
    (C2_deletion_debounce "T1" "T2" "T3" "T4" [tweet2ex] [tweet2ex] [tweet2ex]
      [tweet2ex] [("1", recC2)] "1" recC2 (by decide) (by decide) rfl rfl
      (by decide) (by decide) (by decide) (by decide)).2.2.2.2.1,
    (C2_deletion_debounce "T1" "T2" "T3" "T4" [tweet2ex] [tweet2ex] [tweet2ex]
      [tweet2ex] [("1", recC2)] "1" recC2 (by decide) (by decide) rfl rfl
      (by decide) (by decide) (by decide) (by decide)).2.2.2.2.2.2⟩

/-- C3 counterexample: reconciling the same batch twice is not
idempotent.  (a) A record with missing_streak 1 that stays absent is
advanced to streak 2 by the first run and to 3 by the second, which
emits a deletion.  (b) A batch holding the same id twice with different
content re-emits an "edited" notification on every run. -/
theorem C3_counterexample :
    c3run2.1 ≠ [] ∧
    c3run2.1.map (fun p => (p.1.id, p.2)) = [("1", "deleted")] ∧
    c3dup2.1 ≠ [] ∧
    c3dup2.1.map (fun p => (p.1.id, p.2)) = [("1", "edited"), ("1", "edited")] :=
  ⟨by decide, by decide, by decide, by decide⟩

/-- C3 amended: reconciling the same batch twice yields no
notification on the second run, provided the batch has no duplicate
ids and no record outside the batch is at missing_streak exactly 1
while not deleted. -/
theorem C3_idempotence_amended (n1 n2 : String) (ts : List Tweet)
    (st : StateMap)
    (hnd : (ts.map (fun t => t.id)).Nodup)
    (hst : ∀ p ∈ st, p.1 ∉ ts.map (fun t => t.id) →
      p.2.deleted = true ∨ p.2.missing_streak ≠ 1) :
    (process_tweets n2 ts (process_tweets n1 ts st).2).1 = [] := by
  have hA : (processCurrent n2 ts (process_tweets n1 ts st).2).1 = [] := by
    apply processCurrent_no_notif n2 ts hnd
    intro t ht
    have hmem : t.id ∈ ts.map (fun u => u.id) := List.mem_map.mpr ⟨t, ht, rfl⟩
    rcases processCurrent_hash_lookup n1 ts hnd st t ht with ⟨r, hlr, hh, _, _⟩
    refine ⟨r, ?_, hh⟩
    rw [process_tweets_def]
    simp only
    rw [processMissing_eq]
    simp only
    rw [lookupRec_map_missingStep, hlr]
    simp [missingStep, hmem]
  have hB : (processMissing n2 (ts.map (fun t => t.id))
      (processCurrent n2 ts (process_tweets n1 ts st).2).2).1 = [] := by
    rw [processMissing_eq]
    simp only
    rw [List.filterMap_eq_nil_iff]
    intro p hp
    by_cases hpm : p.1 ∈ ts.map (fun t => t.id)
    · simp [missingNotif, hpm]
    · rcases processCurrent_mem_state n2 ts _ p hp with h | h
      · exact absurd h hpm
      · rw [process_tweets_def] at h
        simp only at h
        rw [processMissing_eq] at h
        simp only at h
        rcases List.mem_map.mp h with ⟨q, hq, hpq⟩
        have hq1 : q.1 = p.1 := by
          rw [← hpq, fst_missingStep]
        have hqm : q.1 ∉ ts.map (fun t => t.id) := hq1 ▸ hpm
        have hqst : q ∈ st := by
          rcases processCurrent_mem_state n1 ts st q hq with h' | h'
          · exact absurd h' hqm
          · exact h'
        rcases hst q hqst hqm with hqd | hqs
        · have hp2 : p.2 = q.2 := by
            rw [← hpq]
            simp [missingStep, hqm, hqd]
          simp [missingNotif, hpm, hp2, hqd]
        · by_cases hqdel : q.2.deleted = true
          · have hp2 : p.2 = q.2 := by
              rw [← hpq]
              simp [missingStep, hqm, hqdel]
            simp [missingNotif, hpm, hp2, hqdel]
          · by_cases hge : q.2.missing_streak + 1 ≥ 3
            · have hpd : p.2.deleted = true := by
                rw [← hpq]
                simp [missingStep, hqm, hqdel, hge]
              simp [missingNotif, hpm, hpd]
            · have hq0 : q.2.missing_streak = 0 := by omega
              have hpd : p.2.deleted = false := by
                rw [← hpq]
                simp [missingStep, hqm, hqdel, hge]
              have hpms : p.2.missing_streak = 1 := by
                rw [← hpq]
                simp [missingStep, hqm, hqdel, hge, hq0]
              simp [missingNotif, hpm, hpd, hpms]
  rw [process_tweets_def]
  simp only
  rw [hA, hB]
  rfl

/-- Witness for the amended C3: a fresh id over an empty state. -/
theorem C3_witness :
    (([tweet2ex].map (fun t => t.id)).Nodup ∧
      (∀ p ∈ ([] : StateMap), p.1 ∉ [tweet2ex].map (fun t => t.id) →
        p.2.deleted = true ∨ p.2.missing_streak ≠ 1)) ∧
    (process_tweets "T2" [tweet2ex]
      (process_tweets "T1" [tweet2ex] []).2).1 = [] :=
  ⟨⟨by decide, by simp⟩,
    C3_idempotence_amended "T1" "T2" [tweet2ex] [] (by decide) (by simp)⟩


/-- C8 counterexample: an archive write failure DOES abort the run.
With the archive failing on the first of two notifications, the second
notification is never delivered and the final state save is never
reached — contradicting the claimed isolation. -/
theorem C8_counterexample :
    runDeliver c8fail [(tweetC1a, "new"), (tweet2ex, "new")] = ([], false) ∧
    "2" ∉ (runDeliver c8fail [(tweetC1a, "new"), (tweet2ex, "new")]).1 ∧
    (runDeliver c8fail [(tweetC1a, "new"), (tweet2ex, "new")]).2 = false :=
  ⟨by decide, by decide, by decide⟩

/-- C8 amended: a failure while archiving one item aborts the run at
that item: exactly the earlier items were delivered and the state is
not persisted.  (Notifier failures, by contrast, are caught inside
`notify_tweet` and cannot abort the loop.) -/
theorem C8_archive_failure_aborts (ok : Tweet → String → Bool)
    (pre post : List (Tweet × String)) (t : Tweet) (s : String)
    (hpre : ∀ p ∈ pre, ok p.1 p.2 = true) (hfail : ok t s = false) :
    runDeliver ok (pre ++ (t, s) :: post) =
      (pre.map (fun p => p.1.id), false) := by
  induction pre with
  | nil =>
    simp only [List.nil_append, runDeliver, hfail]
    rfl
  | cons p rest ih =>
    rcases p with ⟨u, v⟩
    have hu : ok u v = true := hpre (u, v) (List.mem_cons_self _ _)
    simp only [List.cons_append, runDeliver, hu, if_pos, List.append_eq]
    rw [ih (fun q hq => hpre q (List.mem_cons_of_mem _ hq))]
    rfl

/-- Witness for the amended C8: archive succeeds on id "1", fails on
id "2"; the run delivers only id "1" and never saves. -/
theorem C8_witness :
    ((∀ p ∈ [(tweetC1a, "new")], c8ok p.1 p.2 = true) ∧
      c8ok tweet2ex "new" = false) ∧
    runDeliver c8ok ([(tweetC1a, "new")] ++ (tweet2ex, "new") :: [])
      = ([tweetC1a.id], false) :=
  ⟨⟨by decide, by decide⟩,
    C8_archive_failure_aborts c8ok [(tweetC1a, "new")] [] tweet2ex "new"
      (by decide) (by decide)⟩

/-- C7 counterexample: the choice between the content_html-derived and
summary-derived texts is made on RAW html length, not on length after
stripping.  With content_html "hi" and summary "<b>x</b>" the summary
wins on raw length (8 over 2), so the normalized text is "x", although
the content-derived text "hi" is strictly longer after stripping (and
the title is empty). -/
theorem C7_counterexample :
    parseItemText "hi" "<b>x</b>" "" [] = "x" ∧
    _clean_html "hi" = "hi" ∧ _clean_html "<b>x</b>" = "x" ∧
    _clean_html "" = "" ∧
    ¬((_clean_html "hi").length ≤ (_clean_html "<b>x</b>").length) :=
  ⟨by decide, by decide, by decide, by decide, by decide⟩

/-- C7 amended: the candidate html is whichever of content_html and
summary has the greater RAW length (ties to content_html); the item's
text is then the longer of the candidate-derived text and the cleaned
title, ties resolved to the candidate-derived text. -/
theorem C7_text_selection_amended (c s ttl : String) (links : List RawLink)
    (base tb tc : String)
    (hbase : base = if s.length ≤ c.length then c else s)
    (htb : tb = (_parse_content base links).1)
    (htc : tc = _clean_html ttl) :
    (parseItemText c s ttl links = tb ∨ parseItemText c s ttl links = tc) ∧
    tb.length ≤ (parseItemText c s ttl links).length ∧
    (tc ≠ "" → tc.length ≤ (parseItemText c s ttl links).length) ∧
    (tc.length ≤ tb.length → parseItemText c s ttl links = tb) := by
  subst hbase
  subst htb
  subst htc
  unfold parseItemText
  by_cases h : _clean_html ttl ≠ "" ∧
      ((_parse_content (if s.length ≤ c.length then c else s) links).1).length
        < (_clean_html ttl).length
  · rw [if_pos h]
    refine ⟨Or.inr rfl, Nat.le_of_lt h.2, fun _ => Nat.le_refl _, fun hle => ?_⟩
    exact absurd h.2 (Nat.not_lt.mpr hle)
  · rw [if_neg h]
    refine ⟨Or.inl rfl, Nat.le_refl _, fun hne => ?_, fun _ => rfl⟩
    rcases Decidable.not_and_iff_or_not.mp h with h' | h'
    · exact absurd hne (by simpa using h')
    · exact Nat.not_lt.mp h'

/-- Witness for the amended C7 at the counterexample's input. -/
theorem C7_witness :
    ((("<b>x</b>" : String) =
        if ("<b>x</b>" : String).length ≤ ("hi" : String).length then "hi"
        else "<b>x</b>") ∧
      ("x" : String) = (_parse_content "<b>x</b>" []).1 ∧
      ("" : String) = _clean_html "") ∧
    ((parseItemText "hi" "<b>x</b>" "" [] = "x" ∨
        parseItemText "hi" "<b>x</b>" "" [] = "") ∧
      ("x" : String).length ≤ (parseItemText "hi" "<b>x</b>" "" []).length ∧
      (("" : String) ≠ "" →
        ("" : String).length ≤ (parseItemText "hi" "<b>x</b>" "" []).length) ∧
      (("" : String).length ≤ ("x" : String).length →
        parseItemText "hi" "<b>x</b>" "" [] = "x")) :=
  ⟨⟨by decide, by decide, by decide⟩,
    C7_text_selection_amended "hi" "<b>x</b>" "" [] "<b>x</b>" "x" ""
      (by decide) (by decide) (by decide)⟩

/-- Stability of the ordered insert under `filtId`: all notifications
for one id share the sort key `idKey i`, so the insert never crosses
one of them, and filtering commutes with it. -/
theorem filtId_orderedInsert (i : String) (a : Tweet × String)
    (l : List (Tweet × String)) :
    filtId i (List.orderedInsert keyLe a l) =
      if a.1.id = i then a :: filtId i l else filtId i l := by
  induction l with
  | nil => by_cases h : a.1.id = i <;> simp [List.orderedInsert, filtId, h]
  | cons b l ih =>
    by_cases hab : keyLe a b
    · rw [List.orderedInsert, if_pos hab]
      by_cases h : a.1.id = i <;>
        by_cases hb : b.1.id = i <;>
          simp [filtId, List.filter_cons, h, hb]
    · rw [List.orderedInsert, if_neg hab]
      by_cases h : a.1.id = i
      · have hb : ¬ b.1.id = i := by
          intro hbi
          apply hab
          show notifKey a ≤ notifKey b
          simp [notifKey, h, hbi]
        simp [filtId, List.filter_cons, hb, h] at ih ⊢
        exact ih
      · by_cases hb : b.1.id = i <;>
          simp [filtId, List.filter_cons, hb, h] at ih ⊢ <;> exact ih

/-- The stable sort preserves the subsequence of notifications of any
single id: filtering by an id commutes with `sortByKey`. -/
theorem filtId_insertionSort (i : String) (l : List (Tweet × String)) :
    filtId i (sortByKey l) = filtId i l := by
  unfold sortByKey
  induction l with
  | nil => rfl
  | cons a l ih =>
    rw [List.insertionSort, filtId_orderedInsert]
    by_cases h : a.1.id = i <;> simp [filtId, List.filter_cons, h] at ih ⊢ <;>
      exact ih

/-- The present-loop over a concatenated batch is the loop over the
first part followed by the loop over the second on the resulting
state, notifications appended in order. -/
theorem processCurrent_append (now : String) (l1 l2 : List Tweet) :
    ∀ st : StateMap,
      processCurrent now (l1 ++ l2) st =
        ((processCurrent now l1 st).1 ++
            (processCurrent now l2 (processCurrent now l1 st).2).1,
          (processCurrent now l2 (processCurrent now l1 st).2).2) := by
  induction l1 with
  | nil => intro st; simp [processCurrent]
  | cons t rest ih =>
    intro st
    cases hl : lookupRec st t.id with
    | none =>
      rw [List.cons_append]
      simp only [processCurrent, hl]
      rw [ih]
      simp
    | some rec =>
      rw [List.cons_append]
      simp only [processCurrent, hl]
      rw [ih]
      by_cases hh : rec.hash ≠ content_hash t <;> simp [hh]

/-- The present-loop emits no notification for an id carried by no
batch item. -/
theorem filtId_processCurrent_nil (now : String) (ts : List Tweet)
    (st : StateMap) (i : String) (hi : ∀ t ∈ ts, t.id ≠ i) :
    filtId i (processCurrent now ts st).1 = [] := by
  rw [filtId, List.filter_eq_nil_iff]
  intro q hq hqi
  simp at hqi
  exact hi q.1 (processCurrent_notif_mem now ts st q hq) hqi

/-- The missing-scan leaves the record of an id that is in the batch
untouched. -/
theorem processMissing_lookup_mem (now : String) (ids : List String)
    (st : StateMap) (i : String) (hmem : i ∈ ids) :
    lookupRec (processMissing now ids st).2 i = lookupRec st i := by
  rw [processMissing_eq]
  simp only
  rw [lookupRec_map_missingStep]
  cases h : lookupRec st i <;> simp [missingStep, hmem]

/-- The missing-scan emits no notification for an id that is in the
batch (its single state entry is skipped). -/
theorem filtId_processMissing_mem (now : String) (ids : List String)
    (st : StateMap) (i : String) (r : StateRecord)
    (hmem : i ∈ ids) (hnd : (keys st).Nodup) (hl : lookupRec st i = some r) :
    filtId i (processMissing now ids st).1 = [] := by
  rw [processMissing_eq]
  simp only
  rw [filtId_filterMap, filter_key_of_lookup st i r hnd hl,
    filterMap_singleton_toList]
  simp [missingNotif, hmem]

/-- The present-loop on a batch whose only occurrences of the id
`t1.id` are `t1` (first) and `t2` (second), the id being absent from
state and the two fingerprints differing: exactly `(t1, "new")` then
`(t2, "edited")` are emitted for that id, and its record ends as the
update by `t2`. -/
theorem processCurrent_two_occ (now : String) (t1 t2 : Tweet)
    (mid post : List Tweet) (st : StateMap)
    (hid2 : t2.id = t1.id)
    (hmid : ∀ t ∈ mid, t.id ≠ t1.id) (hpost : ∀ t ∈ post, t.id ≠ t1.id)
    (hl : lookupRec st t1.id = none)
    (hh : content_hash t1 ≠ content_hash t2) :
    filtId t1.id (processCurrent now (t1 :: mid ++ t2 :: post) st).1
      = [(t1, "new"), (t2, "edited")] ∧
    lookupRec (processCurrent now (t1 :: mid ++ t2 :: post) st).2 t1.id
      = some (updatedRecord (newRecord now t1 (content_hash t1)) now t2
          (content_hash t2)) := by
  have hmidm : t1.id ∉ mid.map (fun t => t.id) := by
    intro h
    rcases List.mem_map.mp h with ⟨t, ht, hid⟩
    exact hmid t ht hid
  have hpostm : t1.id ∉ post.map (fun t => t.id) := by
    intro h
    rcases List.mem_map.mp h with ⟨t, ht, hid⟩
    exact hpost t ht hid
  have hlmid : lookupRec (processCurrent now mid
      (setRec st t1.id (newRecord now t1 (content_hash t1)))).2 t2.id
      = some (newRecord now t1 (content_hash t1)) := by
    rw [hid2, processCurrent_lookup_not_mem now mid _ t1.id hmidm,
      lookupRec_setRec_self]
  have hsplit := processCurrent_append now mid (t2 :: post)
    (setRec st t1.id (newRecord now t1 (content_hash t1)))
  have ht2step : processCurrent now (t2 :: post)
      (processCurrent now mid
        (setRec st t1.id (newRecord now t1 (content_hash t1)))).2
      = ((t2, "edited") :: (processCurrent now post
            (setRec (processCurrent now mid
              (setRec st t1.id (newRecord now t1 (content_hash t1)))).2 t2.id
              (updatedRecord (newRecord now t1 (content_hash t1)) now t2
                (content_hash t2)))).1,
          (processCurrent now post
            (setRec (processCurrent now mid
              (setRec st t1.id (newRecord now t1 (content_hash t1)))).2 t2.id
              (updatedRecord (newRecord now t1 (content_hash t1)) now t2
                (content_hash t2)))).2) := by
    simp only [processCurrent, hlmid]
    rw [if_pos]
    show (newRecord now t1 (content_hash t1)).hash ≠ content_hash t2
    simpa [newRecord] using hh
  constructor
  · simp only [processCurrent, hl, List.append_eq]
    rw [hsplit]
    simp only
    rw [ht2step]
    simp only
    rw [filtId, List.filter_cons]
    simp only [decide_eq_true_eq, if_true]
    rw [show List.filter (fun p => decide (p.1.id = t1.id))
        ((processCurrent now mid (setRec st t1.id
          (newRecord now t1 (content_hash t1)))).1 ++
        (t2, "edited") :: (processCurrent now post _).1) =
      filtId t1.id ((processCurrent now mid (setRec st t1.id
          (newRecord now t1 (content_hash t1)))).1 ++
        (t2, "edited") :: (processCurrent now post _).1) from rfl]
    rw [filtId_append]
    rw [filtId_processCurrent_nil now mid _ t1.id hmid]
    rw [filtId, List.filter_cons]
    simp only [decide_eq_true_eq]
    rw [if_pos hid2]
    rw [show List.filter (fun p => decide (p.1.id = t1.id))
        (processCurrent now post _).1 = filtId t1.id
        (processCurrent now post _).1 from rfl]
    rw [filtId_processCurrent_nil now post _ t1.id hpost]
    simp
  · simp only [processCurrent, hl, List.append_eq]
    rw [hsplit]
    simp only
    rw [ht2step]
    simp only
    rw [processCurrent_lookup_not_mem now post _ t1.id hpostm]
    rw [← hid2, lookupRec_setRec_self]

/-- C10: for every batch containing exactly two occurrences of an id
that is absent from state — the items `t1` then `t2`, with arbitrary
other items around them — and every state, if the two occurrences have
different fingerprints then one reconcile call emits exactly
[(t1, "new"), (t2, "edited")] for that id, and the persisted record
ends up holding the second occurrence's content. -/
theorem C10_duplicate_ids (now : String) (t1 t2 : Tweet) (i : String)
    (pre mid post : List Tweet) (st : StateMap)
    (hnd : (keys st).Nodup)
    (hid1 : t1.id = i) (hid2 : t2.id = i)
    (hpre : ∀ t ∈ pre, t.id ≠ i) (hmid : ∀ t ∈ mid, t.id ≠ i)
    (hpost : ∀ t ∈ post, t.id ≠ i)
    (hl : lookupRec st i = none)
    (hh : content_hash t1 ≠ content_hash t2) :
    filtId i (process_tweets now (pre ++ (t1 :: mid ++ t2 :: post)) st).1
      = [(t1, "new"), (t2, "edited")] ∧
    ∃ r, lookupRec (process_tweets now (pre ++ (t1 :: mid ++ t2 :: post)) st).2 i
        = some r ∧ r.hash = content_hash t2 ∧ r.text = t2.text ∧
        r.images = t2.images ∧ r.videos = t2.videos ∧ r.url = t2.url := by
  subst hid1
  have hprem : t1.id ∉ pre.map (fun t => t.id) := by
    intro h
    rcases List.mem_map.mp h with ⟨t, ht, hid⟩
    exact hpre t ht hid
  have hlpre : lookupRec (processCurrent now pre st).2 t1.id = none := by
    rw [processCurrent_lookup_not_mem now pre st t1.id hprem]
    exact hl
  have htwo := processCurrent_two_occ now t1 t2 mid post
    (processCurrent now pre st).2 hid2 hmid hpost hlpre hh
  have hsplit := processCurrent_append now pre (t1 :: mid ++ t2 :: post) st
  have hmem : t1.id ∈ (pre ++ (t1 :: mid ++ t2 :: post)).map (fun t => t.id) := by
    simp
  have hnd1 := keys_processCurrent_nodup now (pre ++ (t1 :: mid ++ t2 :: post))
    st hnd
  have hlfull : lookupRec
      (processCurrent now (pre ++ (t1 :: mid ++ t2 :: post)) st).2 t1.id
      = some (updatedRecord (newRecord now t1 (content_hash t1)) now t2
          (content_hash t2)) := by
    rw [hsplit]
    exact htwo.2
  constructor
  · rw [process_tweets_def]
    simp only
    rw [filtId_insertionSort, filtId_append]
    rw [filtId_processMissing_mem now _ _ t1.id _ hmem hnd1 hlfull]
    rw [hsplit]
    simp only
    rw [filtId_append]
    rw [filtId_processCurrent_nil now pre st t1.id hpre]
    rw [htwo.1]
    rfl
  · refine ⟨updatedRecord (newRecord now t1 (content_hash t1)) now t2
      (content_hash t2), ?_, rfl, rfl, rfl, rfl, rfl⟩
    rw [process_tweets_def]
    simp only
    rw [processMissing_lookup_mem now _ _ t1.id hmem]
    exact hlfull

/-- Witness for C10 at two concrete same-id items over empty state. -/
theorem C10_witness :
    ((keys ([] : StateMap)).Nodup ∧ tweetC1a.id = "1" ∧ tweetC3b.id = "1" ∧
      lookupRec [] "1" = none ∧
      content_hash tweetC1a ≠ content_hash tweetC3b) ∧
    filtId "1"
        (process_tweets "T" ([] ++ (tweetC1a :: [] ++ tweetC3b :: [])) []).1
      = [(tweetC1a, "new"), (tweetC3b, "edited")] :=
  ⟨⟨by decide, rfl, rfl, rfl, by decide⟩,
    (C10_duplicate_ids "T" tweetC1a tweetC3b "1" [] [] [] [] (by decide)
      rfl rfl (by simp) (by simp) (by simp) rfl (by decide)).1⟩
